import Mathlib

/-!
Shallow embedding of the CYNIC scheduler (Rust): verdicts, reputation
scores, the φ-weighted priority model, the bounded priority queue, the
reputation client's lookup path, and the scheduler's admission pipeline
and lifecycle.

Modelling conventions: Rust `f64` scores are modelled as exact rationals
(no NaN or infinity arises on the modelled paths — fees are `u64` and the
verdict multipliers are finite constants), `Instant` timestamps as
naturals supplied by an explicit clock argument at each `Instant::now()`
call site, Rust `String` as `List Char`, `HashMap` as an association
list, and the `priority_queue` crate's map-backed heap as an association
list whose `peek`/`pop` select the entry with the GREATEST priority
(which is what that crate's `peek`/`pop` do).
-/

namespace Cynic

attribute [local semireducible] Rat.mul Rat.inv Rat.add Rat.sub

/-- Model of Rust `String`. -/
abbrev Str := List Char

/-- Golden ratio constant `PHI = 1.618033988749895` from `lib.rs`. -/
def PHI : ℚ := 1618033988749895 / 1000000000000000

/-- Inverse golden ratio constant `PHI_INV = 0.618033988749895` from `lib.rs`. -/
def PHI_INV : ℚ := 618033988749895 / 1000000000000000

/-- CYNIC verdict types (`lib.rs`). -/
inductive Verdict
  | Wag
  | Howl
  | Bark
  | Growl
deriving DecidableEq, Repr

/-- Priority multiplier for a verdict (`Verdict::multiplier`). -/
def Verdict.multiplier : Verdict → ℚ
  | .Wag => PHI
  | .Howl => 1
  | .Bark => PHI_INV
  | .Growl => 0

/-- Whether the transaction should be dropped (`Verdict::should_drop`). -/
def Verdict.should_drop : Verdict → Bool
  | .Growl => true
  | _ => false

/-- Reputation score from CYNIC (`lib.rs`). -/
structure ReputationScore where
  q_score : ℚ
  verdict : Verdict
  k_score : Option ℚ
  e_score : Option ℚ
  confidence : ℚ
deriving DecidableEq, Repr

/-- Neutral default score (`impl Default for ReputationScore`). -/
def ReputationScore.default : ReputationScore :=
  { q_score := 50
    verdict := .Howl
    k_score := none
    e_score := none
    confidence := PHI_INV * 100 }

/-- Scheduler errors (`error.rs`); foreign error payloads are modelled as
their display strings. -/
inductive SchedulerError
  | Config (msg : Str)
  | CynicApi (msg : Str)
  | Network (msg : Str)
  | Serialization (msg : Str)
  | TransactionParse (msg : Str)
  | Queue (msg : Str)
  | SharedMemory (msg : Str)
  | WorkerComm (msg : Str)
  | Timeout (msg : Str)
  | Internal (msg : Str)
deriving DecidableEq, Repr

/-- Transaction priority score (`priority.rs`). -/
structure TransactionPriority where
  base_fee : ℕ
  phi_score : ℚ
  timestamp : ℕ
deriving DecidableEq, Repr

/-- Constructor `TransactionPriority::new`: φ-weighted score from fee and
verdict; the `now` argument models the `Instant::now()` call. -/
def TransactionPriority.new (base_fee : ℕ) (reputation : ReputationScore)
    (now : ℕ) : TransactionPriority :=
  { base_fee := base_fee
    phi_score := (base_fee : ℚ) * reputation.verdict.multiplier
    timestamp := now }

/-- Rust `Ord for TransactionPriority`: a higher `phi_score` is greater; on
equal scores the comparison is `other.timestamp.cmp(&self.timestamp)`, so
the EARLIER timestamp is greater (FIFO among equal scores). -/
def TransactionPriority.cmp (a b : TransactionPriority) : Ordering :=
  if a.phi_score < b.phi_score then .lt
  else if b.phi_score < a.phi_score then .gt
  else if b.timestamp < a.timestamp then .lt
  else if a.timestamp < b.timestamp then .gt
  else .eq

/-- Lookup in an association list (model of `HashMap::get` and of the
`priority_queue` crate's key map). -/
def alGet {β : Type} : List (Str × β) → Str → Option β
  | [], _ => none
  | e :: rest, k => if e.1 = k then some e.2 else alGet rest k

/-- Insert-or-replace in an association list (model of `HashMap::insert`
and of the crate's `push`, which updates the priority in place when the
key is already present). -/
def alInsert {β : Type} : List (Str × β) → Str → β → List (Str × β)
  | [], k, v => [(k, v)]
  | e :: rest, k, v => if e.1 = k then (k, v) :: rest else e :: alInsert rest k v

/-- Remove a key from an association list, returning the removed value
(model of `HashMap::remove`). -/
def alRemove {β : Type} : List (Str × β) → Str → Option β × List (Str × β)
  | [], _ => (none, [])
  | e :: rest, k =>
    if e.1 = k then (some e.2, rest)
    else
      let r := alRemove rest k
      (r.1, e :: r.2)

/-- Model of the crate's `PriorityQueue::peek`: the entry with the
greatest priority (ties resolved towards the front of the list; in the
source two priorities are `Eq` only with identical score and instant). -/
def iqPeek : List (Str × TransactionPriority) →
    Option (Str × TransactionPriority)
  | [] => none
  | e :: rest =>
    match iqPeek rest with
    | none => some e
    | some m => if e.2.cmp m.2 = .lt then some m else some e

/-- Model of the crate's `PriorityQueue::pop`: removes and returns the
entry with the greatest priority. -/
def iqPop : List (Str × TransactionPriority) →
    Option ((Str × TransactionPriority) × List (Str × TransactionPriority))
  | [] => none
  | e :: rest =>
    match iqPop rest with
    | none => some (e, [])
    | some (m, rest') =>
      if e.2.cmp m.2 = .lt then some (m, e :: rest') else some (e, rest)

/-- Queue statistics (`priority.rs`). -/
structure QueueStats where
  total_enqueued : ℕ
  total_dequeued : ℕ
  total_dropped : ℕ
  total_boosted : ℕ
  total_reduced : ℕ
  current_size : ℕ
deriving DecidableEq, Repr

/-- Zero-initialised statistics (`QueueStats::default`). -/
def QueueStats.default : QueueStats :=
  { total_enqueued := 0
    total_dequeued := 0
    total_dropped := 0
    total_boosted := 0
    total_reduced := 0
    current_size := 0 }

/-- Transaction entry in the queue (`priority.rs`). -/
structure QueuedTransaction where
  signature : Str
  fee_payer : Str
  priority_fee : ℕ
  compute_units : ℕ
  reputation : Option ReputationScore
  tx_offset : ℕ
  tx_length : ℕ
deriving DecidableEq, Repr

/-- State behind the queue's mutex (`PriorityQueueInner`). -/
structure PriorityQueueInner where
  queue : List (Str × TransactionPriority)
  transactions : List (Str × QueuedTransaction)
  stats : QueueStats
deriving DecidableEq, Repr

/-- Thread-safe priority queue for transactions (`priority.rs`). -/
structure PriorityQueue where
  inner : PriorityQueueInner
  max_size : ℕ
deriving DecidableEq, Repr

/-- Constructor `PriorityQueue::new`. -/
def PriorityQueue.new (max_size : ℕ) : PriorityQueue :=
  { inner := { queue := [], transactions := [], stats := QueueStats.default }
    max_size := max_size }

/-- Operation `PriorityQueue::enqueue`.  `t1` models the `Instant::now()`
of the priority computed for the capacity comparison (line 173), `t2` the
one of the priority actually inserted (line 184); the code calls
`Instant::now()` twice.  The capacity branch peeks and pops the crate
queue, whose `peek`/`pop` return the entry with the GREATEST priority,
and the pop removes nothing from the `transactions` map.  The comparison
`priority <= *lowest` of the derived `PartialOrd` is `cmp ≠ Greater`. -/
def PriorityQueue.enqueue (self : PriorityQueue) (tx : QueuedTransaction)
    (reputation : ReputationScore) (t1 t2 : ℕ) :
    PriorityQueue × Except SchedulerError Bool :=
  let inner := self.inner
  if reputation.verdict.should_drop then
    ({ self with inner :=
        { inner with stats := { inner.stats with
            total_dropped := inner.stats.total_dropped + 1 } } },
      .ok false)
  else
    let step1 : Except SchedulerError PriorityQueueInner :=
      if self.max_size ≤ inner.queue.length then
        let priority := TransactionPriority.new tx.priority_fee reputation t1
        match iqPeek inner.queue with
        | some lowest =>
          if priority.cmp lowest.2 ≠ .gt then
            .error (.Queue ("Queue full, transaction priority too low".data))
          else
            match iqPop inner.queue with
            | some (_, q') => .ok { inner with queue := q' }
            | none => .ok inner
        | none => .ok inner
      else .ok inner
    match step1 with
    | .error e => (self, .error e)
    | .ok inner1 =>
      let priority := TransactionPriority.new tx.priority_fee reputation t2
      let stats1 :=
        match reputation.verdict with
        | .Wag => { inner1.stats with total_boosted := inner1.stats.total_boosted + 1 }
        | .Bark => { inner1.stats with total_reduced := inner1.stats.total_reduced + 1 }
        | _ => inner1.stats
      let sig := tx.signature
      let transactions1 := alInsert inner1.transactions sig tx
      let queue1 := alInsert inner1.queue sig priority
      let stats2 := { stats1 with
        total_enqueued := stats1.total_enqueued + 1
        current_size := queue1.length }
      ({ self with inner :=
          { queue := queue1, transactions := transactions1, stats := stats2 } },
        .ok true)

/-- Operation `PriorityQueue::dequeue`: pop the greatest-priority entry,
bump the counters, and remove its record from the transaction map. -/
def PriorityQueue.dequeue (self : PriorityQueue) :
    PriorityQueue × Option QueuedTransaction :=
  match iqPop self.inner.queue with
  | some (entry, q') =>
    let r := alRemove self.inner.transactions entry.1
    let stats1 := { self.inner.stats with
      total_dequeued := self.inner.stats.total_dequeued + 1
      current_size := q'.length }
    ({ self with inner := { queue := q', transactions := r.2, stats := stats1 } },
      r.1)
  | none => (self, none)

/-- Loop body of `PriorityQueue::dequeue_batch` (the `for _ in 0..n`
loop): each round pops the crate queue and appends the removed record to
the batch only when the transaction map held one. -/
def dequeueBatchLoop :
    ℕ → PriorityQueueInner → List QueuedTransaction →
    PriorityQueueInner × List QueuedTransaction
  | 0, inner, batch => (inner, batch)
  | n + 1, inner, batch =>
    match iqPop inner.queue with
    | none => (inner, batch)
    | some (entry, q') =>
      let r := alRemove inner.transactions entry.1
      let batch1 :=
        match r.1 with
        | some tx => batch ++ [tx]
        | none => batch
      dequeueBatchLoop n { inner with queue := q', transactions := r.2 } batch1

/-- Operation `PriorityQueue::dequeue_batch`: run the loop, then update
the dequeued counter by the batch length and the size gauge. -/
def PriorityQueue.dequeue_batch (self : PriorityQueue) (n : ℕ) :
    PriorityQueue × List QueuedTransaction :=
  let r := dequeueBatchLoop n self.inner []
  let stats1 := { r.1.stats with
    total_dequeued := r.1.stats.total_dequeued + r.2.length
    current_size := r.1.queue.length }
  ({ self with inner := { r.1 with stats := stats1 } }, r.2)

/-- Operation `PriorityQueue::len`. -/
def PriorityQueue.len (self : PriorityQueue) : ℕ := self.inner.queue.length

/-- Operation `PriorityQueue::clear`. -/
def PriorityQueue.clear (self : PriorityQueue) : PriorityQueue :=
  { self with inner :=
      { queue := []
        transactions := []
        stats := { self.inner.stats with current_size := 0 } } }

/-- Parsed CYNIC judgment response body (`JudgeResponse`). -/
structure JudgeResponse where
  q_score : ℚ
  verdict : Verdict
  confidence : ℚ
  k_score : Option ℚ
  e_score : Option ℚ
deriving DecidableEq, Repr

deriving instance DecidableEq for Except

/-- Outcome of the HTTP round trip inside `query_reputation`: either the
transport fails (the `reqwest` send error), or a response arrives with a
status code and a body whose JSON parse either succeeds or fails with a
message. -/
inductive HttpOutcome
  | transportError (msg : Str)
  | response (status : ℕ) (parsed : Except Str JudgeResponse)
deriving DecidableEq, Repr

/-- Rust `StatusCode::is_success`: a 2xx status. -/
def statusIsSuccess (status : ℕ) : Bool := 200 ≤ status && status < 300

/-- Method `CynicClient::query_reputation`, as a function of the HTTP
outcome.  A transport error is mapped to a `CynicApi` error and returned
with `?`; a non-success status is converted into the default score; a
success status whose body fails to parse is returned as an error with
`?`; otherwise the parsed score is returned with its confidence capped
by `f64::min` at `PHI_INV * 100.0`. -/
def CynicClient.query_reputation (outcome : HttpOutcome) :
    Except SchedulerError ReputationScore :=
  match outcome with
  | .transportError msg =>
    .error (.CynicApi ("Request failed: ".data ++ msg))
  | .response status parsed =>
    if statusIsSuccess status = false then
      .ok ReputationScore.default
    else
      match parsed with
      | .error emsg =>
        .error (.CynicApi ("Failed to parse response: ".data ++ emsg))
      | .ok j =>
        .ok { q_score := j.q_score
              verdict := j.verdict
              k_score := j.k_score
              e_score := j.e_score
              confidence := min j.confidence (PHI_INV * 100) }

/-- Cached reputation entry (`CacheEntry`). -/
structure CacheEntry where
  score : ReputationScore
  cached_at : ℕ
deriving DecidableEq, Repr

/-- The client's mutable state: its cache map, together with the
configured time-to-live. -/
structure CynicClientState where
  cache : List (Str × CacheEntry)
  cache_ttl : ℕ
deriving DecidableEq, Repr

/-- Method `CynicClient::get_cached`: a hit only while `elapsed < ttl`. -/
def CynicClient.get_cached (st : CynicClientState) (key : Str) (now : ℕ) :
    Option ReputationScore :=
  match alGet st.cache key with
  | some entry =>
    if now - entry.cached_at < st.cache_ttl then some entry.score else none
  | none => none

/-- Method `CynicClient::cache_score`: insert, then — only when the map
has grown past 10,000 entries — sweep out the expired entries. -/
def CynicClient.cache_score (st : CynicClientState) (key : Str)
    (score : ReputationScore) (now : ℕ) : CynicClientState :=
  let cache1 := alInsert st.cache key (CacheEntry.mk score now)
  let cache2 :=
    if 10000 < cache1.length then
      cache1.filter (fun e => decide (now - e.2.cached_at < st.cache_ttl))
    else cache1
  { st with cache := cache2 }

/-- Cache key used by `get_wallet_reputation`: the bare address. -/
def walletCacheKey (address : Str) : Str := address

/-- Cache key used by `get_token_reputation`: `format!("token:{}", mint)`. -/
def tokenCacheKey (mint : Str) : Str := "token:".data ++ mint

/-- Method `CynicClient::get_wallet_reputation`: cache check under the
bare address, then query, then cache the fresh score.  The `?` on
`query_reputation` propagates its error to the caller. -/
def CynicClient.get_wallet_reputation (st : CynicClientState) (address : Str)
    (now : ℕ) (outcome : HttpOutcome) :
    CynicClientState × Except SchedulerError ReputationScore :=
  match CynicClient.get_cached st (walletCacheKey address) now with
  | some cached => (st, .ok cached)
  | none =>
    match CynicClient.query_reputation outcome with
    | .error e => (st, .error e)
    | .ok score =>
      (CynicClient.cache_score st (walletCacheKey address) score now, .ok score)

/-- Method `CynicClient::get_token_reputation`: same shape as the wallet
lookup but keyed by `"token:" ++ mint`. -/
def CynicClient.get_token_reputation (st : CynicClientState) (mint : Str)
    (now : ℕ) (outcome : HttpOutcome) :
    CynicClientState × Except SchedulerError ReputationScore :=
  match CynicClient.get_cached st (tokenCacheKey mint) now with
  | some cached => (st, .ok cached)
  | none =>
    match CynicClient.query_reputation outcome with
    | .error e => (st, .error e)
    | .ok score =>
      (CynicClient.cache_score st (tokenCacheKey mint) score now, .ok score)

/-- Scheduler configuration (`config.rs`), restricted to the fields the
admission pipeline reads. -/
structure SchedulerConfig where
  max_queue_size : ℕ
  batch_size : ℕ
  num_workers : ℕ
  enable_growl_filter : Bool
  enable_wag_boost : Bool
  min_e_score : ℚ
  wag_multiplier : ℚ
  bark_multiplier : ℚ
deriving DecidableEq, Repr

/-- Default configuration (`impl Default for SchedulerConfig`). -/
def SchedulerConfig.default : SchedulerConfig :=
  { max_queue_size := 100000
    batch_size := 64
    num_workers := 4
    enable_growl_filter := true
    enable_wag_boost := true
    min_e_score := 0
    wag_multiplier := PHI
    bark_multiplier := PHI_INV }

/-- Method `SchedulerConfig::validate`. -/
def SchedulerConfig.validate (c : SchedulerConfig) :
    Except SchedulerError Unit :=
  if c.max_queue_size = 0 then
    .error (.Config ("max_queue_size must be > 0".data))
  else if c.batch_size = 0 then
    .error (.Config ("batch_size must be > 0".data))
  else if c.num_workers = 0 then
    .error (.Config ("num_workers must be > 0".data))
  else if c.wag_multiplier ≤ 0 then
    .error (.Config ("wag_multiplier must be > 0".data))
  else if c.bark_multiplier ≤ 0 ∨ 1 ≤ c.bark_multiplier then
    .error (.Config ("bark_multiplier must be in (0, 1)".data))
  else
    .ok ()

/-- Scheduler lifecycle state (`scheduler.rs`). -/
inductive SchedulerState
  | Stopped
  | Starting
  | Running
  | Stopping
deriving DecidableEq, Repr

/-- The scheduler's lifecycle-relevant state: the `state` value behind
its lock plus the `running` atomic flag. -/
structure SchedulerCore where
  state : SchedulerState
  running : Bool
deriving DecidableEq, Repr

/-- Method `CynicScheduler::start` as one sequential call: from any state
other than `Stopped` it returns an "already running" internal error and
changes nothing; otherwise it passes through `Starting`, sets the
`running` flag and finishes in `Running`. -/
def SchedulerCore.start (s : SchedulerCore) :
    SchedulerCore × Except SchedulerError Unit :=
  if s.state ≠ SchedulerState.Stopped then
    (s, .error (.Internal ("Scheduler already running".data)))
  else
    ({ state := SchedulerState.Running, running := true }, .ok ())

/-- Method `CynicScheduler::stop` as one sequential call: from any state
other than `Running` it is a no-op returning success; otherwise it passes
through `Stopping`, clears the `running` flag and finishes in `Stopped`. -/
def SchedulerCore.stop (s : SchedulerCore) :
    SchedulerCore × Except SchedulerError Unit :=
  if s.state ≠ SchedulerState.Running then (s, .ok ())
  else ({ state := SchedulerState.Stopped, running := false }, .ok ())

/-- Method `CynicScheduler::is_running`: reads the atomic flag. -/
def SchedulerCore.is_running (s : SchedulerCore) : Bool := s.running

/-- Method `CynicScheduler::get_reputation`: a client error is replaced
by the default score, so the admission path always gets a score. -/
def CynicScheduler.get_reputation (st : CynicClientState) (address : Str)
    (now : ℕ) (outcome : HttpOutcome) : CynicClientState × ReputationScore :=
  let r := CynicClient.get_wallet_reputation st address now outcome
  match r.2 with
  | .ok score => (r.1, score)
  | .error _ => (r.1, ReputationScore.default)

/-- Method `CynicScheduler::process_transaction`, from the point where
the reputation for the fee payer has been resolved (`get_reputation`
never fails).  The GROWL filter fires when the config flag is on and the
verdict is droppable; then the minimum-E-Score check fires whenever the
transaction carries `Some(e_score)` with `e_score < min_e_score`
(unconditionally on the floor's value); otherwise the transaction is
built and handed to `PriorityQueue::enqueue`. -/
def CynicScheduler.process_transaction (config : SchedulerConfig)
    (pq : PriorityQueue) (reputation : ReputationScore)
    (signature fee_payer : Str)
    (priority_fee compute_units tx_offset tx_length : ℕ)
    (t1 t2 : ℕ) : PriorityQueue × Except SchedulerError Bool :=
  if config.enable_growl_filter && reputation.verdict.should_drop then
    (pq, .ok false)
  else if (match reputation.e_score with
           | some e => decide (e < config.min_e_score)
           | none => false) then
    (pq, .ok false)
  else
    let tx : QueuedTransaction :=
      { signature := signature
        fee_payer := fee_payer
        priority_fee := priority_fee
        compute_units := compute_units
        reputation := some reputation
        tx_offset := tx_offset
        tx_length := tx_length }
    pq.enqueue tx reputation t1 t2

/-! Helper lemmas about the priority order and the container models. -/

/-- Priority-order relation induced by `TransactionPriority.cmp`: `ple a b`
says the priority of `a` is at most that of `b` (smaller weighted score,
or equal score with a later-or-equal timestamp). -/
def ple (a b : TransactionPriority) : Prop :=
  a.phi_score < b.phi_score ∨
    (a.phi_score = b.phi_score ∧ b.timestamp ≤ a.timestamp)

instance (a b : TransactionPriority) : Decidable (ple a b) := by
  unfold ple; exact inferInstance

theorem ple_refl (a : TransactionPriority) : ple a a :=
  Or.inr ⟨rfl, le_refl _⟩

theorem ple_trans {a b c : TransactionPriority}
    (hab : ple a b) (hbc : ple b c) : ple a c := by
  rcases hab with h | ⟨he, ht⟩ <;> rcases hbc with h' | ⟨he', ht'⟩
  · exact Or.inl (lt_trans h h')
  · exact Or.inl (he' ▸ h)
  · exact Or.inl (he.symm ▸ h')
  · exact Or.inr ⟨he.trans he', le_trans ht' ht⟩

theorem TransactionPriority.cmp_ne_gt_iff (a b : TransactionPriority) :
    a.cmp b ≠ .gt ↔ ple a b := by
  unfold TransactionPriority.cmp ple
  split_ifs with h1 h2 h3 h4
  · exact iff_of_true (by decide) (Or.inl h1)
  · refine iff_of_false (by simp) ?_
    rintro (h | ⟨he, _⟩)
    · exact h1 h
    · exact absurd h2 (by rw [he]; exact lt_irrefl _)
  · exact iff_of_true (by decide)
      (Or.inr ⟨le_antisymm (not_lt.mp h2) (not_lt.mp h1), h3.le⟩)
  · refine iff_of_false (by simp) ?_
    rintro (h | ⟨_, hle⟩)
    · exact h1 h
    · omega
  · exact iff_of_true (by decide)
      (Or.inr ⟨le_antisymm (not_lt.mp h2) (not_lt.mp h1), Nat.le_of_not_lt h4⟩)

theorem TransactionPriority.cmp_ne_lt_iff (a b : TransactionPriority) :
    a.cmp b ≠ .lt ↔ ple b a := by
  unfold TransactionPriority.cmp ple
  split_ifs with h1 h2 h3 h4
  · refine iff_of_false (by simp) ?_
    rintro (h | ⟨he, _⟩)
    · exact absurd h1 (not_lt.2 h.le)
    · exact absurd h1 (by rw [he]; exact lt_irrefl _)
  · exact iff_of_true (by decide) (Or.inl h2)
  · refine iff_of_false (by simp) ?_
    rintro (h | ⟨_, hle⟩)
    · exact h2 h
    · omega
  · exact iff_of_true (by decide)
      (Or.inr ⟨le_antisymm (not_lt.mp h1) (not_lt.mp h2), h4.le⟩)
  · exact iff_of_true (by decide)
      (Or.inr ⟨le_antisymm (not_lt.mp h1) (not_lt.mp h2), Nat.le_of_not_lt h3⟩)

theorem ple_of_cmp_lt {a b : TransactionPriority}
    (h : a.cmp b = .lt) : ple a b :=
  (TransactionPriority.cmp_ne_gt_iff a b).1 (by rw [h]; decide)

theorem iqPop_none : ∀ {q : List (Str × TransactionPriority)},
    iqPop q = none → q = []
  | [], _ => rfl
  | e :: rest, h => by
    cases hr : iqPop rest with
    | none =>
      simp only [iqPop, hr] at h
      exact Option.noConfusion h
    | some p =>
      rcases p with ⟨m, rest'⟩
      simp only [iqPop, hr] at h
      by_cases hc : e.2.cmp m.2 = .lt
      · rw [if_pos hc] at h; exact Option.noConfusion h
      · rw [if_neg hc] at h; exact Option.noConfusion h

theorem iqPop_perm : ∀ {q q' : List (Str × TransactionPriority)}
    {m : Str × TransactionPriority},
    iqPop q = some (m, q') → q.Perm (m :: q')
  | [], _, _, h => by exact Option.noConfusion h
  | e :: rest, q', m, h => by
    cases hr : iqPop rest with
    | none =>
      simp only [iqPop, hr] at h
      injection h with hA
      injection hA with hB hC
      rw [← hB, ← hC, iqPop_none hr]
    | some p =>
      rcases p with ⟨m0, rest'⟩
      simp only [iqPop, hr] at h
      have hperm := iqPop_perm hr
      by_cases hc : e.2.cmp m0.2 = .lt
      · rw [if_pos hc] at h
        injection h with hA
        injection hA with hB hC
        rw [← hB, ← hC]
        exact (hperm.cons e).trans (List.Perm.swap m0 e rest')
      · rw [if_neg hc] at h
        injection h with hA
        injection hA with hB hC
        rw [← hB, ← hC]

theorem iqPop_max : ∀ {q q' : List (Str × TransactionPriority)}
    {m : Str × TransactionPriority},
    iqPop q = some (m, q') → ∀ x ∈ q, ple x.2 m.2
  | [], _, _, h => by exact Option.noConfusion h
  | e :: rest, q', m, h => by
    cases hr : iqPop rest with
    | none =>
      simp only [iqPop, hr] at h
      injection h with hA
      injection hA with hB hC
      rw [← hB, iqPop_none hr]
      intro x hx
      rcases List.mem_singleton.1 hx with rfl
      exact ple_refl _
    | some p =>
      rcases p with ⟨m0, rest'⟩
      simp only [iqPop, hr] at h
      have hmax := iqPop_max hr
      by_cases hc : e.2.cmp m0.2 = .lt
      · rw [if_pos hc] at h
        injection h with hA
        injection hA with hB hC
        rw [← hB]
        intro x hx
        rcases List.mem_cons.1 hx with rfl | hx
        · exact ple_of_cmp_lt hc
        · exact hmax x hx
      · rw [if_neg hc] at h
        injection h with hA
        injection hA with hB hC
        rw [← hB]
        intro x hx
        rcases List.mem_cons.1 hx with rfl | hx
        · exact ple_refl _
        · exact ple_trans (hmax x hx)
            ((TransactionPriority.cmp_ne_lt_iff _ _).1 hc)

theorem alGet_of_mem_nodup {β : Type} :
    ∀ {l : List (Str × β)} {e : Str × β},
    (l.map Prod.fst).Nodup → e ∈ l → alGet l e.1 = some e.2
  | [], _, _, he => absurd he (List.not_mem_nil _)
  | f :: rest, e, hnd, he => by
    rcases List.mem_cons.1 he with rfl | he'
    · simp [alGet]
    · have hne : f.1 ≠ e.1 := by
        intro hfe
        have : e.1 ∈ rest.map Prod.fst := List.mem_map_of_mem _ he'
        rw [List.map_cons, List.nodup_cons] at hnd
        exact hnd.1 (hfe ▸ this)
      have := alGet_of_mem_nodup (l := rest) (e := e)
        (by rw [List.map_cons, List.nodup_cons] at hnd; exact hnd.2) he'
      simp [alGet, hne, this]

theorem alGet_mem {β : Type} :
    ∀ {l : List (Str × β)} {k : Str} {v : β},
    alGet l k = some v → (k, v) ∈ l
  | [], _, _, h => by exact Option.noConfusion h
  | (e1, e2) :: rest, k, v, h => by
    by_cases hk : e1 = k
    · subst hk
      rw [alGet, if_pos rfl] at h
      cases h
      exact List.mem_cons_self _ _
    · rw [alGet, if_neg hk] at h
      exact List.mem_cons_of_mem _ (alGet_mem h)

theorem alRemove_fst {β : Type} :
    ∀ (l : List (Str × β)) (k : Str), (alRemove l k).1 = alGet l k
  | [], _ => rfl
  | e :: rest, k => by
    by_cases hk : e.1 = k
    · simp [alRemove, alGet, hk]
    · simp [alRemove, alGet, hk, alRemove_fst rest k]

theorem alRemove_get_ne {β : Type} :
    ∀ (l : List (Str × β)) (k s : Str), s ≠ k →
      alGet (alRemove l k).2 s = alGet l s
  | [], _, _, _ => rfl
  | e :: rest, k, s, hs => by
    by_cases hk : e.1 = k
    · have h1 : e.1 ≠ s := by rw [hk]; exact fun h => hs h.symm
      rw [alRemove, if_pos hk, alGet, if_neg h1]
    · by_cases hes : e.1 = s
      · rw [alRemove, if_neg hk]
        simp only [alGet, if_pos hes]
      · rw [alRemove, if_neg hk]
        simp only [alGet, if_neg hes]
        exact alRemove_get_ne rest k s hs

theorem alRemove_sub {β : Type} :
    ∀ {l : List (Str × β)} {k : Str} {p : Str × β},
    p ∈ (alRemove l k).2 → p ∈ l
  | [], _, _, h => absurd h (List.not_mem_nil _)
  | e :: rest, k, p, h => by
    by_cases hk : e.1 = k
    · rw [alRemove, if_pos hk] at h
      exact List.mem_cons_of_mem _ h
    · rw [alRemove, if_neg hk] at h
      rcases List.mem_cons.1 h with rfl | h'
      · exact List.mem_cons_self _ _
      · exact List.mem_cons_of_mem _ (alRemove_sub h')

theorem alInsert_get_self {β : Type} :
    ∀ (l : List (Str × β)) (k : Str) (v : β),
    alGet (alInsert l k v) k = some v
  | [], k, v => by simp [alInsert, alGet]
  | e :: rest, k, v => by
    by_cases hk : e.1 = k
    · simp [alInsert, alGet, hk]
    · simp [alInsert, alGet, hk, alInsert_get_self rest k v]

theorem alInsert_keys_of_mem {β : Type} :
    ∀ (l : List (Str × β)) (k : Str) (v : β),
    k ∈ l.map Prod.fst →
      (alInsert l k v).map Prod.fst = l.map Prod.fst
  | [], _, _, h => absurd h (List.not_mem_nil _)
  | e :: rest, k, v, h => by
    by_cases hk : e.1 = k
    · simp [alInsert, hk]
    · have hk' : k ∈ rest.map Prod.fst := by
        rcases List.mem_cons.1 h with h' | h'
        · exact absurd h'.symm hk
        · exact h'
      simp [alInsert, hk, alInsert_keys_of_mem rest k v hk']

theorem alInsert_mem {β : Type} :
    ∀ {l : List (Str × β)} {k : Str} {v : β} {p : Str × β},
    p ∈ alInsert l k v → p ∈ l ∨ p = (k, v)
  | [], k, v, p, h => by
    rcases List.mem_singleton.1 h with rfl
    exact Or.inr rfl
  | e :: rest, k, v, p, h => by
    by_cases hk : e.1 = k
    · rw [alInsert, if_pos hk] at h
      rcases List.mem_cons.1 h with rfl | h'
      · exact Or.inr rfl
      · exact Or.inl (List.mem_cons_of_mem _ h')
    · rw [alInsert, if_neg hk] at h
      rcases List.mem_cons.1 h with rfl | h'
      · exact Or.inl (List.mem_cons_self _ _)
      · rcases alInsert_mem h' with h'' | h''
        · exact Or.inl (List.mem_cons_of_mem _ h'')
        · exact Or.inr h''

theorem dequeueBatchLoop_append :
    ∀ (n : ℕ) (inner : PriorityQueueInner) (batch : List QueuedTransaction),
    dequeueBatchLoop n inner batch =
      ((dequeueBatchLoop n inner []).1,
        batch ++ (dequeueBatchLoop n inner []).2)
  | 0, inner, batch => by simp [dequeueBatchLoop]
  | n + 1, inner, batch => by
    cases hp : iqPop inner.queue with
    | none => simp [dequeueBatchLoop, hp]
    | some p =>
      rcases p with ⟨entry, q'⟩
      simp only [dequeueBatchLoop, hp]
      cases hr : (alRemove inner.transactions entry.1).1 with
      | some tx =>
        rw [dequeueBatchLoop_append n _ (batch ++ [tx]),
          dequeueBatchLoop_append n _ ([] ++ [tx])]
        simp
      | none =>
        exact dequeueBatchLoop_append n _ batch

/-- Relative order of two batch elements: both signatures resolve in the
reference ranking `q0`, and the earlier element's priority is at least
the later element's (higher weighted score, or equal score with an
earlier-or-equal enqueue timestamp). -/
def batchOrdered (q0 : List (Str × TransactionPriority))
    (a b : QueuedTransaction) : Prop :=
  ∃ pa pb, alGet q0 a.signature = some pa ∧ alGet q0 b.signature = some pb ∧
    ple pb pa

theorem batchLoop_spec (q0 : List (Str × TransactionPriority)) :
    ∀ (n : ℕ) (inner : PriorityQueueInner),
    (inner.queue.map Prod.fst).Nodup →
    (∀ e ∈ inner.queue, (alGet inner.transactions e.1).isSome = true) →
    (∀ p ∈ inner.transactions, p.2.signature = p.1) →
    (∀ e ∈ inner.queue, alGet q0 e.1 = some e.2) →
    (dequeueBatchLoop n inner []).2.length = min n inner.queue.length ∧
    (dequeueBatchLoop n inner []).1.queue.length
      = inner.queue.length - min n inner.queue.length ∧
    List.Chain' (batchOrdered q0) (dequeueBatchLoop n inner []).2 ∧
    (∀ tx ∈ (dequeueBatchLoop n inner []).2,
      ∃ e ∈ inner.queue, e.1 = tx.signature)
  | 0, inner, _, _, _, _ => by
    refine ⟨by simp [dequeueBatchLoop], by simp [dequeueBatchLoop],
      List.chain'_nil, ?_⟩
    intro tx htx
    exact absurd htx (List.not_mem_nil _)
  | n + 1, inner, hnd, h2, h3, hq0 => by
    cases hp : iqPop inner.queue with
    | none =>
      have hqe : inner.queue = [] := iqPop_none hp
      have hstep : dequeueBatchLoop (n + 1) inner [] = (inner, []) := by
        simp only [dequeueBatchLoop, hp]
      rw [hstep]
      refine ⟨by simp [hqe], by simp [hqe], List.chain'_nil, ?_⟩
      intro tx htx
      exact absurd htx (List.not_mem_nil _)
    | some p =>
      rcases p with ⟨m, q'⟩
      have hperm : inner.queue.Perm (m :: q') := iqPop_perm hp
      have hmax : ∀ x ∈ inner.queue, ple x.2 m.2 := iqPop_max hp
      have hmmem : m ∈ inner.queue := hperm.symm.subset (List.mem_cons_self _ _)
      have hq'mem : ∀ e ∈ q', e ∈ inner.queue :=
        fun e he => hperm.symm.subset (List.mem_cons_of_mem _ he)
      have hndm : (m.1 :: q'.map Prod.fst).Nodup := by
        have := hperm.map Prod.fst
        exact this.nodup hnd
      have hmnotin : m.1 ∉ q'.map Prod.fst := (List.nodup_cons.1 hndm).1
      have hkey_ne : ∀ e ∈ q', e.1 ≠ m.1 := by
        intro e he hcontra
        exact hmnotin (hcontra ▸ List.mem_map_of_mem _ he)
      obtain ⟨tx_m, htx⟩ := Option.isSome_iff_exists.1 (h2 m hmmem)
      have hr1 : (alRemove inner.transactions m.1).1 = some tx_m := by
        rw [alRemove_fst]; exact htx
      have hsig_m : tx_m.signature = m.1 := h3 _ (alGet_mem htx)
      have hlen : inner.queue.length = q'.length + 1 := by
        have := hperm.length_eq
        simpa using this
      -- loop body reduces to the recursive call on the shrunk state
      set inner1 : PriorityQueueInner :=
        { inner with queue := q', transactions := (alRemove inner.transactions m.1).2 }
        with hinner1
      have hstep : dequeueBatchLoop (n + 1) inner []
          = ((dequeueBatchLoop n inner1 []).1,
              tx_m :: (dequeueBatchLoop n inner1 []).2) := by
        simp only [dequeueBatchLoop, hp, hr1]
        rw [dequeueBatchLoop_append n inner1 ([] ++ [tx_m])]
        simp
      -- hypotheses for the shrunk state
      have hnd' : (inner1.queue.map Prod.fst).Nodup := (List.nodup_cons.1 hndm).2
      have h2' : ∀ e ∈ inner1.queue, (alGet inner1.transactions e.1).isSome = true := by
        intro e he
        rw [hinner1]
        simp only []
        rw [alRemove_get_ne _ _ _ (hkey_ne e he)]
        exact h2 e (hq'mem e he)
      have h3' : ∀ p ∈ inner1.transactions, p.2.signature = p.1 :=
        fun p hp' => h3 p (alRemove_sub hp')
      have hq0' : ∀ e ∈ inner1.queue, alGet q0 e.1 = some e.2 :=
        fun e he => hq0 e (hq'mem e he)
      obtain ⟨ih1, ih2, ih3, ih4⟩ := batchLoop_spec q0 n inner1 hnd' h2' h3' hq0'
      have hq1len : inner1.queue.length = q'.length := by rw [hinner1]
      refine ⟨?_, ?_, ?_, ?_⟩
      · rw [hstep]
        simp only [List.length_cons]
        omega
      · rw [hstep]
        show (dequeueBatchLoop n inner1 []).1.queue.length
          = inner.queue.length - min (n + 1) inner.queue.length
        omega
      · rw [hstep]
        simp only []
        rw [List.chain'_cons']
        refine ⟨?_, ih3⟩
        intro b hb
        have hbmem : b ∈ (dequeueBatchLoop n inner1 []).2 :=
          List.mem_of_mem_head? hb
        obtain ⟨e, he, hesig⟩ := ih4 b hbmem
        refine ⟨m.2, e.2, ?_, ?_, ?_⟩
        · rw [hsig_m]
          exact hq0 m hmmem
        · rw [← hesig]
          exact hq0 e (hq'mem e he)
        · exact hmax e (hq'mem e he)
      · rw [hstep]
        intro tx htxmem
        rcases List.mem_cons.1 htxmem with rfl | htxmem'
        · exact ⟨m, hmmem, hsig_m.symm⟩
        · obtain ⟨e, he, hesig⟩ := ih4 tx htxmem'
          exact ⟨e, hq'mem e he, hesig⟩

theorem alInsert_length_of_mem {β : Type} (l : List (Str × β)) (k : Str)
    (v : β) (h : k ∈ l.map Prod.fst) : (alInsert l k v).length = l.length := by
  have := congrArg List.length (alInsert_keys_of_mem l k v h)
  simpa using this

/-! Concrete inputs for the claim theorems, mirroring the source tests'
`make_tx` helper. -/

/-- Transaction builder in the style of the source tests' `make_tx`. -/
def mkTx (sig : Str) (fee : ℕ) : QueuedTransaction :=
  { signature := sig
    fee_payer := "payer".data
    priority_fee := fee
    compute_units := 200000
    reputation := none
    tx_offset := 0
    tx_length := 100 }

/-- Priority of a fee-1 Howl transaction enqueued at instant 0. -/
def prioA : TransactionPriority := { base_fee := 1, phi_score := 1, timestamp := 0 }

/-- Priority of a fee-10 Howl transaction enqueued at instant 1. -/
def prioB : TransactionPriority := { base_fee := 10, phi_score := 10, timestamp := 1 }

/-- Queue at capacity 2 holding the minimum-priority resident `a`
(weighted score 1) and the maximum-priority resident `b` (score 10). -/
def pqFull : PriorityQueue :=
  { inner := { queue := [("a".data, prioA), ("b".data, prioB)]
               transactions := [("a".data, mkTx "a".data 1), ("b".data, mkTx "b".data 10)]
               stats := QueueStats.default }
    max_size := 2 }

/-- Queue at capacity 1 holding the single resident `a` (score 1). -/
def pqOne : PriorityQueue :=
  { inner := { queue := [("a".data, prioA)]
               transactions := [("a".data, mkTx "a".data 1)]
               stats := QueueStats.default }
    max_size := 1 }

/-- Same two residents as `pqFull` but with plenty of headroom. -/
def pqW : PriorityQueue :=
  { inner := { queue := [("a".data, prioA), ("b".data, prioB)]
               transactions := [("a".data, mkTx "a".data 1), ("b".data, mkTx "b".data 10)]
               stats := QueueStats.default }
    max_size := 100 }

/-- Default score with a droppable (Growl) verdict. -/
def repGrowl : ReputationScore := { ReputationScore.default with verdict := .Growl }

/-- Default score carrying a negative wallet-specific E-Score. -/
def repNegE : ReputationScore := { ReputationScore.default with e_score := some (-1) }

/-- Default configuration with the GROWL drop filter switched off. -/
def cfgOff : SchedulerConfig := { SchedulerConfig.default with enable_growl_filter := false }

/-- Upstream judgment with an out-of-range confidence of 1000. -/
def jW : JudgeResponse :=
  { q_score := 1, verdict := .Howl, confidence := 1000, k_score := none, e_score := none }

/-- Score produced for `jW`: confidence capped at `PHI_INV * 100`. -/
def sW : ReputationScore :=
  { q_score := 1, verdict := .Howl, k_score := none, e_score := none,
    confidence := PHI_INV * 100 }

/-- Distinctive token score cached under the token key for mint `x`. -/
def tokenScoreX : ReputationScore :=
  { q_score := 7, verdict := .Bark, k_score := some 3, e_score := none, confidence := 10 }

/-- Client state whose cache holds only the token entry for mint `x`. -/
def stTok : CynicClientState :=
  { cache := [(tokenCacheKey "x".data, { score := tokenScoreX, cached_at := 0 })]
    cache_ttl := 60 }

/-! Claim theorems. -/

/-- C1.  The claim says an enqueue into a full queue compares the new
priority against the MINIMUM-priority resident and, when strictly
greater, evicts exactly that minimum.  The code instead peeks and pops
the crate queue, whose `peek`/`pop` return the MAXIMUM-priority entry
(its own comments say "Drop lowest priority" / "Remove lowest priority").
On a full queue holding scores {1, 10}: a new score-5 transaction, which
strictly exceeds the minimum 1, is rejected with the capacity error and
the queue is unchanged; a new score-20 transaction is admitted but evicts
the MAXIMUM resident `b` (score 10), not the minimum `a` (score 1). -/
theorem c1_capacity_check_targets_maximum :
    (pqFull.enqueue (mkTx "c".data 5) ReputationScore.default 2 3).2
      = .error (.Queue ("Queue full, transaction priority too low".data)) ∧
    (pqFull.enqueue (mkTx "c".data 5) ReputationScore.default 2 3).1 = pqFull ∧
    (pqFull.enqueue (mkTx "d".data 20) ReputationScore.default 2 3).2 = .ok true ∧
    (pqFull.enqueue (mkTx "d".data 20) ReputationScore.default 2 3).1.inner.queue.map Prod.fst
      = ["a".data, "d".data] ∧
    alGet (pqFull.enqueue (mkTx "d".data 20) ReputationScore.default 2 3).1.inner.queue
      ("b".data) = none :=
  ⟨by decide, by decide, by decide, by decide, by decide⟩

/-- C2.  The claim says the ranking structure and the transaction map
always hold the same key set after every public operation.  The eviction
path of `enqueue` pops the ranking structure but never removes the
evicted signature from the transaction map: enqueueing a score-10
transaction `b` into the full capacity-1 queue holding `a` leaves the
ranking with key set {b} but the transaction map with key set {a, b}. -/
theorem c2_eviction_desyncs_maps :
    (pqOne.enqueue (mkTx "b".data 10) ReputationScore.default 0 1).2 = .ok true ∧
    (pqOne.enqueue (mkTx "b".data 10) ReputationScore.default 0 1).1.inner.queue.map Prod.fst
      = ["b".data] ∧
    (pqOne.enqueue (mkTx "b".data 10) ReputationScore.default 0 1).1.inner.transactions.map Prod.fst
      = ["a".data, "b".data] ∧
    (alGet (pqOne.enqueue (mkTx "b".data 10) ReputationScore.default 0 1).1.inner.transactions
      ("a".data)).isSome = true ∧
    alGet (pqOne.enqueue (mkTx "b".data 10) ReputationScore.default 0 1).1.inner.queue
      ("a".data) = none :=
  ⟨by decide, by decide, by decide, by decide, by decide⟩

/-- C3 counterexample.  The claim says the client's lookup never returns
an error.  On a cache miss with a failing transport, the `?` operator in
`get_wallet_reputation` propagates the `CynicApi` error to the caller. -/
theorem c3_lookup_error_surfaces :
    (CynicClient.get_wallet_reputation { cache := [], cache_ttl := 60 }
      ("w".data) 0 (.transportError ("boom".data))).2
      = .error (.CynicApi ("Request failed: boom".data)) := by decide

/-- C3 amended.  Only a non-success HTTP status is converted to the
default neutral score inside the client; a transport failure, and a parse
failure of a success response, are returned as errors to the caller (the
scheduler's `get_reputation` then substitutes the default). -/
theorem c3_amended_error_paths :
    (∀ status parsed, statusIsSuccess status = false →
      CynicClient.query_reputation (.response status parsed)
        = .ok ReputationScore.default) ∧
    (∀ msg, CynicClient.query_reputation (.transportError msg)
      = .error (.CynicApi ("Request failed: ".data ++ msg))) ∧
    (∀ status emsg, statusIsSuccess status = true →
      CynicClient.query_reputation (.response status (.error emsg))
        = .error (.CynicApi ("Failed to parse response: ".data ++ emsg))) := by
  refine ⟨?_, fun msg => rfl, ?_⟩
  · intro status parsed h
    simp [CynicClient.query_reputation, h]
  · intro status emsg h
    simp [CynicClient.query_reputation, h]

/-- C3 amended witness at concrete statuses 500 and 200. -/
theorem c3_amended_witness :
    (statusIsSuccess 500 = false ∧
      CynicClient.query_reputation (.response 500 (.ok jW))
        = .ok ReputationScore.default) ∧
    (statusIsSuccess 200 = true ∧
      CynicClient.query_reputation (.response 200 (.error ("bad json".data)))
        = .error (.CynicApi ("Failed to parse response: ".data ++ "bad json".data))) :=
  ⟨⟨by decide, c3_amended_error_paths.1 500 (.ok jW) (by decide)⟩,
   ⟨by decide, c3_amended_error_paths.2.2 200 ("bad json".data) (by decide)⟩⟩

/-- C4 counterexample.  The claim says that with drop-filtering disabled
by configuration a droppable-verdict transaction proceeds to normal
insertion at the queue layer.  `PriorityQueue::enqueue` consults no
configuration at all: with the flag off, a Growl transaction is still
dropped (result `Ok(false)`, nothing stored, dropped counter bumped). -/
theorem c4_disabled_filter_growl_still_dropped :
    cfgOff.enable_growl_filter = false ∧
    ((PriorityQueue.new 10).enqueue (mkTx "g".data 100) repGrowl 0 1).2 = .ok false ∧
    ((PriorityQueue.new 10).enqueue (mkTx "g".data 100) repGrowl 0 1).1.inner.queue.length = 0 ∧
    ((PriorityQueue.new 10).enqueue (mkTx "g".data 100) repGrowl 0 1).1.inner.transactions.length = 0 ∧
    ((PriorityQueue.new 10).enqueue (mkTx "g".data 100) repGrowl 0 1).1.inner.stats.total_dropped = 1 :=
  ⟨by decide, by decide, by decide, by decide, by decide⟩

/-- C4 amended.  At the queue layer the drop on a droppable verdict is
unconditional: `enqueue` increments the dropped counter, returns
`Ok(false)`, and leaves both maps untouched, for every queue state and
with no configuration consulted; the drop-filter flag gates only the
scheduler-level check in `process_transaction`. -/
theorem c4_queue_drop_unconditional (pq : PriorityQueue)
    (tx : QueuedTransaction) (rep : ReputationScore) (t1 t2 : ℕ)
    (h : rep.verdict.should_drop = true) :
    (pq.enqueue tx rep t1 t2).2 = .ok false ∧
    (pq.enqueue tx rep t1 t2).1.inner.queue = pq.inner.queue ∧
    (pq.enqueue tx rep t1 t2).1.inner.transactions = pq.inner.transactions ∧
    (pq.enqueue tx rep t1 t2).1.inner.stats.total_dropped
      = pq.inner.stats.total_dropped + 1 := by
  simp [PriorityQueue.enqueue, h]

/-- C4 amended witness at a concrete Growl transaction. -/
theorem c4_queue_drop_witness :
    repGrowl.verdict.should_drop = true ∧
    ((PriorityQueue.new 5).enqueue (mkTx "h".data 7) repGrowl 2 3).2 = .ok false ∧
    ((PriorityQueue.new 5).enqueue (mkTx "h".data 7) repGrowl 2 3).1.inner.queue
      = (PriorityQueue.new 5).inner.queue ∧
    ((PriorityQueue.new 5).enqueue (mkTx "h".data 7) repGrowl 2 3).1.inner.stats.total_dropped
      = (PriorityQueue.new 5).inner.stats.total_dropped + 1 :=
  ⟨by decide,
   (c4_queue_drop_unconditional (PriorityQueue.new 5) (mkTx "h".data 7) repGrowl 2 3 (by decide)).1,
   (c4_queue_drop_unconditional (PriorityQueue.new 5) (mkTx "h".data 7) repGrowl 2 3 (by decide)).2.1,
   (c4_queue_drop_unconditional (PriorityQueue.new 5) (mkTx "h".data 7) repGrowl 2 3 (by decide)).2.2.2⟩

/-- C5.  Every score the client builds from a parsed remote response has
its confidence capped by `f64::min` at `PHI_INV * 100` (the value the
spec writes as 61.8), whatever the upstream confidence (including values
above 100 or negative); the default score used on a non-success status
carries exactly `PHI_INV * 100`; and every entry of the cache after
`cache_score` is either an old entry or carries exactly the score being
cached — so cached confidences are capped too. -/
theorem c5_confidence_capped :
    (∀ outcome score, CynicClient.query_reputation outcome = .ok score →
      score.confidence ≤ PHI_INV * 100) ∧
    ReputationScore.default.confidence = PHI_INV * 100 ∧
    (∀ st key score now e, e ∈ (CynicClient.cache_score st key score now).cache →
      e ∈ st.cache ∨ e.2.score = score) := by
  refine ⟨?_, rfl, ?_⟩
  · intro outcome score h
    cases outcome with
    | transportError msg =>
      exact absurd h (by simp [CynicClient.query_reputation])
    | response status parsed =>
      by_cases hs : statusIsSuccess status = false
      · simp only [CynicClient.query_reputation, if_pos hs] at h
        injection h with h'
        rw [← h']
        exact le_refl _
      · simp only [CynicClient.query_reputation, if_neg hs] at h
        cases parsed with
        | error emsg => exact absurd h (by simp)
        | ok j =>
          injection h with h'
          rw [← h']
          exact min_le_right _ _
  · intro st key score now e he
    simp only [CynicClient.cache_score] at he
    by_cases hlen : 10000 < (alInsert st.cache key (CacheEntry.mk score now)).length
    · rw [if_pos hlen] at he
      rcases alInsert_mem (List.mem_filter.1 he).1 with h' | h'
      · exact Or.inl h'
      · rw [h']
        exact Or.inr rfl
    · rw [if_neg hlen] at he
      rcases alInsert_mem he with h' | h'
      · exact Or.inl h'
      · rw [h']
        exact Or.inr rfl

/-- C5 witness: upstream confidence 1000 comes back capped. -/
theorem c5_confidence_capped_witness :
    CynicClient.query_reputation (.response 200 (.ok jW)) = .ok sW ∧
    sW.confidence ≤ PHI_INV * 100 :=
  ⟨by decide,
   c5_confidence_capped.1 (.response 200 (.ok jW)) sW (by decide)⟩

/-- C6.  On any well-formed queue state (ranking keys distinct, every
ranked signature backed by a transaction record whose stored signature
matches its key), `dequeue_batch k` returns exactly `min k n` records,
leaves the ranking with `n - min k n` entries, and the batch is ordered
by descending weighted score with ties broken by the earlier enqueue
timestamp (the order `ple` induced by `TransactionPriority.cmp`). -/
theorem c6_dequeue_batch_spec (pq : PriorityQueue) (k : ℕ)
    (hnd : (pq.inner.queue.map Prod.fst).Nodup)
    (h2 : ∀ e ∈ pq.inner.queue, (alGet pq.inner.transactions e.1).isSome = true)
    (h3 : ∀ p ∈ pq.inner.transactions, p.2.signature = p.1) :
    (pq.dequeue_batch k).2.length = min k pq.inner.queue.length ∧
    (pq.dequeue_batch k).1.inner.queue.length
      = pq.inner.queue.length - min k pq.inner.queue.length ∧
    List.Chain' (batchOrdered pq.inner.queue) (pq.dequeue_batch k).2 := by
  have hq0 : ∀ e ∈ pq.inner.queue, alGet pq.inner.queue e.1 = some e.2 :=
    fun e he => alGet_of_mem_nodup hnd he
  obtain ⟨a1, a2, a3, _⟩ := batchLoop_spec pq.inner.queue k pq.inner hnd h2 h3 hq0
  exact ⟨a1, a2, a3⟩

/-- C6 witness on a concrete two-element queue with batch size 3. -/
theorem c6_dequeue_batch_witness :
    ((pqW.inner.queue.map Prod.fst).Nodup ∧
     (∀ e ∈ pqW.inner.queue, (alGet pqW.inner.transactions e.1).isSome = true) ∧
     (∀ p ∈ pqW.inner.transactions, p.2.signature = p.1)) ∧
    ((pqW.dequeue_batch 3).2.length = min 3 pqW.inner.queue.length ∧
     (pqW.dequeue_batch 3).1.inner.queue.length
       = pqW.inner.queue.length - min 3 pqW.inner.queue.length ∧
     List.Chain' (batchOrdered pqW.inner.queue) (pqW.dequeue_batch 3).2) :=
  ⟨⟨by decide, by decide, by decide⟩,
   c6_dequeue_batch_spec pqW 3 (by decide) (by decide) (by decide)⟩

/-- C7.  The claim (and the config's own doc comment "0 = no filter")
says the E-Score floor check is disabled when `min_e_score` is 0.  The
code checks `e_score < min_e_score` whenever an `e_score` is present,
with no guard on the floor being positive: under the default
configuration (floor 0) a transaction carrying `e_score = Some(-1)` is
rejected (`Ok(false)`, queue untouched). -/
theorem c7_floor_zero_still_rejects :
    SchedulerConfig.default.min_e_score = 0 ∧
    (CynicScheduler.process_transaction SchedulerConfig.default (PriorityQueue.new 10)
      repNegE ("s".data) ("p".data) 100 200000 0 100 0 1).2 = .ok false ∧
    (CynicScheduler.process_transaction SchedulerConfig.default (PriorityQueue.new 10)
      repNegE ("s".data) ("p".data) 100 200000 0 100 0 1).1 = PriorityQueue.new 10 :=
  ⟨by decide, by decide, by decide⟩

/-- C8.  Lifecycle: `start` from any state other than `Stopped` returns
the "already running" error and changes nothing; `stop` from any state
other than `Running` is a success no-op; the concrete sequence
start–start–stop–stop from `Stopped` errors exactly on the second start,
finishes in `Stopped` with `is_running` false, and the second stop is a
no-op; and both operations always land in one of the four states. -/
theorem c8_lifecycle :
    (∀ s : SchedulerCore, s.state ≠ SchedulerState.Stopped →
      s.start = (s, .error (.Internal ("Scheduler already running".data)))) ∧
    (∀ s : SchedulerCore, s.state ≠ SchedulerState.Running →
      s.stop = (s, .ok ())) ∧
    ((SchedulerCore.mk .Stopped false).start.1.state = .Running ∧
     (SchedulerCore.mk .Stopped false).start.2 = .ok () ∧
     (SchedulerCore.mk .Stopped false).start.1.is_running = true ∧
     (SchedulerCore.mk .Stopped false).start.1.start.2
       = .error (.Internal ("Scheduler already running".data)) ∧
     (SchedulerCore.mk .Stopped false).start.1.start.1.state = .Running ∧
     (SchedulerCore.mk .Stopped false).start.1.stop.1.state = .Stopped ∧
     (SchedulerCore.mk .Stopped false).start.1.stop.1.is_running = false ∧
     (SchedulerCore.mk .Stopped false).start.1.stop.2 = .ok () ∧
     (SchedulerCore.mk .Stopped false).start.1.stop.1.stop
       = ((SchedulerCore.mk .Stopped false).start.1.stop.1, .ok ())) ∧
    (∀ s : SchedulerCore,
      (s.start.1.state = .Stopped ∨ s.start.1.state = .Starting ∨
       s.start.1.state = .Running ∨ s.start.1.state = .Stopping) ∧
      (s.stop.1.state = .Stopped ∨ s.stop.1.state = .Starting ∨
       s.stop.1.state = .Running ∨ s.stop.1.state = .Stopping)) := by
  refine ⟨?_, ?_, by decide, ?_⟩
  · intro s h
    rw [SchedulerCore.start, if_pos h]
  · intro s h
    rw [SchedulerCore.stop, if_pos h]
  · intro s
    rcases s with ⟨st, r⟩
    cases st <;> cases r <;> decide

/-- C8 witness: a double start errors, a stop from `Stopped` is a no-op. -/
theorem c8_lifecycle_witness :
    ((SchedulerCore.mk .Running true).state ≠ SchedulerState.Stopped ∧
     (SchedulerCore.mk .Running true).start
       = (SchedulerCore.mk .Running true,
          .error (.Internal ("Scheduler already running".data)))) ∧
    ((SchedulerCore.mk .Stopped false).state ≠ SchedulerState.Running ∧
     (SchedulerCore.mk .Stopped false).stop
       = (SchedulerCore.mk .Stopped false, .ok ())) :=
  ⟨⟨by decide, c8_lifecycle.1 (SchedulerCore.mk .Running true) (by decide)⟩,
   ⟨by decide, c8_lifecycle.2.1 (SchedulerCore.mk .Stopped false) (by decide)⟩⟩

/-- C9 counterexample.  The claim says a wallet key and a token key can
never collide.  The wallet lookup keys the cache by the BARE address, so
the wallet address `"token:x"` collides with the token key for mint `x`:
the wallet lookup then serves the token's cached score (here even though
its own transport is down). -/
theorem c9_wallet_token_key_collision :
    walletCacheKey ("token:x".data) = tokenCacheKey ("x".data) ∧
    (CynicClient.get_wallet_reputation stTok ("token:x".data) 1
      (.transportError ("down".data))).2 = .ok tokenScoreX :=
  ⟨by decide, by decide⟩

/-- C9 amended.  The keys are distinct whenever the wallet address does
not itself begin with the six characters `token:`; only such adversarial
addresses can collide with a token key. -/
theorem c9_keys_distinct (address mint : Str)
    (h : address.take 6 ≠ "token:".data) :
    walletCacheKey address ≠ tokenCacheKey mint := by
  intro heq
  apply h
  rw [walletCacheKey] at heq
  rw [heq, tokenCacheKey]
  have h6 : ("token:".data).length = 6 := by decide
  rw [← h6, List.take_left]

/-- C9 amended witness at a concrete address and mint. -/
theorem c9_keys_distinct_witness :
    ("wallet1".data).take 6 ≠ "token:".data ∧
    walletCacheKey ("wallet1".data) ≠ tokenCacheKey ("wallet1".data) :=
  ⟨by decide, c9_keys_distinct ("wallet1".data) ("wallet1".data) (by decide)⟩

/-- C10.  Re-enqueueing a signature already resident in a queue below
capacity with a non-droppable verdict replaces both the transaction
record and that signature's priority in place: the crate's `push`
updates the priority of an existing key, and `HashMap::insert`
overwrites the record, so both key sets (and hence both lengths) are
unchanged, the stored record is the new one, and the stored priority is
the freshly computed one — no stale duplicate key remains. -/
theorem c10_duplicate_enqueue_replaces_in_place
    (pq : PriorityQueue) (tx : QueuedTransaction) (rep : ReputationScore) (t1 t2 : ℕ)
    (hcap : pq.inner.queue.length < pq.max_size)
    (hdrop : rep.verdict.should_drop = false)
    (hq : tx.signature ∈ pq.inner.queue.map Prod.fst)
    (ht : tx.signature ∈ pq.inner.transactions.map Prod.fst) :
    (pq.enqueue tx rep t1 t2).2 = .ok true ∧
    (pq.enqueue tx rep t1 t2).1.inner.queue.map Prod.fst
      = pq.inner.queue.map Prod.fst ∧
    (pq.enqueue tx rep t1 t2).1.inner.transactions.map Prod.fst
      = pq.inner.transactions.map Prod.fst ∧
    (pq.enqueue tx rep t1 t2).1.inner.queue.length = pq.inner.queue.length ∧
    (pq.enqueue tx rep t1 t2).1.inner.transactions.length
      = pq.inner.transactions.length ∧
    alGet (pq.enqueue tx rep t1 t2).1.inner.transactions tx.signature = some tx ∧
    alGet (pq.enqueue tx rep t1 t2).1.inner.queue tx.signature
      = some (TransactionPriority.new tx.priority_fee rep t2) := by
  have hnotle : ¬ pq.max_size ≤ pq.inner.queue.length := not_le.2 hcap
  have hres : (pq.enqueue tx rep t1 t2).2 = .ok true := by
    simp [PriorityQueue.enqueue, hdrop, hnotle]
  have hqeq : (pq.enqueue tx rep t1 t2).1.inner.queue
      = alInsert pq.inner.queue tx.signature
          (TransactionPriority.new tx.priority_fee rep t2) := by
    simp [PriorityQueue.enqueue, hdrop, hnotle]
  have hteq : (pq.enqueue tx rep t1 t2).1.inner.transactions
      = alInsert pq.inner.transactions tx.signature tx := by
    simp [PriorityQueue.enqueue, hdrop, hnotle]
  refine ⟨hres, ?_, ?_, ?_, ?_, ?_, ?_⟩
  · rw [hqeq]; exact alInsert_keys_of_mem _ _ _ hq
  · rw [hteq]; exact alInsert_keys_of_mem _ _ _ ht
  · rw [hqeq]; exact alInsert_length_of_mem _ _ _ hq
  · rw [hteq]; exact alInsert_length_of_mem _ _ _ ht
  · rw [hteq]; exact alInsert_get_self _ _ _
  · rw [hqeq]; exact alInsert_get_self _ _ _

/-- C10 witness: re-enqueue resident `a` of `pqW` with a fee-3 record. -/
theorem c10_duplicate_enqueue_witness :
    (pqW.inner.queue.length < pqW.max_size ∧
     ReputationScore.default.verdict.should_drop = false ∧
     (mkTx "a".data 3).signature ∈ pqW.inner.queue.map Prod.fst ∧
     (mkTx "a".data 3).signature ∈ pqW.inner.transactions.map Prod.fst) ∧
    ((pqW.enqueue (mkTx "a".data 3) ReputationScore.default 5 6).2 = .ok true ∧
     (pqW.enqueue (mkTx "a".data 3) ReputationScore.default 5 6).1.inner.queue.map Prod.fst
       = pqW.inner.queue.map Prod.fst ∧
     alGet (pqW.enqueue (mkTx "a".data 3) ReputationScore.default 5 6).1.inner.transactions
       ("a".data) = some (mkTx "a".data 3) ∧
     alGet (pqW.enqueue (mkTx "a".data 3) ReputationScore.default 5 6).1.inner.queue
       ("a".data) = some (TransactionPriority.new 3 ReputationScore.default 6)) :=
  ⟨⟨by decide, by decide, by decide, by decide⟩,
   (c10_duplicate_enqueue_replaces_in_place pqW (mkTx "a".data 3)
      ReputationScore.default 5 6 (by decide) (by decide) (by decide) (by decide)).1,
   (c10_duplicate_enqueue_replaces_in_place pqW (mkTx "a".data 3)
      ReputationScore.default 5 6 (by decide) (by decide) (by decide) (by decide)).2.1,
   (c10_duplicate_enqueue_replaces_in_place pqW (mkTx "a".data 3)
      ReputationScore.default 5 6 (by decide) (by decide) (by decide) (by decide)).2.2.2.2.2.1,
   (c10_duplicate_enqueue_replaces_in_place pqW (mkTx "a".data 3)
      ReputationScore.default 5 6 (by decide) (by decide) (by decide) (by decide)).2.2.2.2.2.2⟩

end Cynic
